import Mathlib

/-!
Verification of the sklonger thread-reconstruction core.

The definitions below are a shallow embedding of `src/bluesky/client.rs`,
`src/bluesky/types.rs`, `src/handlers.rs` and `src/config.rs`.  The remote
Bluesky API (atrium client) is out of scope per the spec and is modelled as
an abstract capability `FetchApi` / `ResolveApi`; machine-level payload
parsing (serde) is modelled as already-parsed record fields, so the
extraction helpers that can only fail on serde errors are total here.
The two unbounded `loop`s in the Rust code are embedded with explicit fuel:
a result of `none` means the fuel ran out, i.e. the loop was still running
after that many fetches.
-/

namespace Sklonger

/-- `Author` from `src/bluesky/types.rs` (equality by identifier per spec §3). -/
structure Author where
  did : String
  handle : String
  display_name : Option String
  avatar_url : Option String
deriving DecidableEq, Repr

/-- `AspectRatio` from `src/bluesky/types.rs`. -/
structure AspectRatio where
  width : Nat
  height : Nat
deriving DecidableEq, Repr

/-- `EmbedImage` from `src/bluesky/types.rs`. -/
structure EmbedImage where
  thumb_url : String
  fullsize_url : String
  alt : String
  aspect_ratio : Option AspectRatio
deriving DecidableEq, Repr

/-- `EmbedVideo` from `src/bluesky/types.rs`. -/
structure EmbedVideo where
  thumbnail_url : Option String
  playlist_url : String
  alt : Option String
  aspect_ratio : Option AspectRatio
deriving DecidableEq, Repr

/-- `EmbedExternal` from `src/bluesky/types.rs`. -/
structure EmbedExternal where
  uri : String
  title : String
  description : String
  thumb_url : Option String
deriving DecidableEq, Repr

/-- `Embed` from `src/bluesky/types.rs`. -/
inductive Embed where
  | images (images : List EmbedImage)
  | video (video : EmbedVideo)
  | external (ext : EmbedExternal)
deriving DecidableEq, Repr

/-- The parsed `record` of a post (`extract_post_record` in `client.rs` pulls
`text`, `createdAt` and `langs` out of the serde value; here the record is
already structured, with `created_at` as Unix seconds). -/
structure PostRecord where
  text : String
  created_at : Int
  langs : List String
deriving DecidableEq, Repr

/-- The fields of atrium's `PostView` that the client code reads. -/
structure PostView where
  uri : String
  cid : String
  author : Author
  record : PostRecord
  reply_count : Option Nat
  repost_count : Option Nat
  like_count : Option Nat
  embed : Option Embed
deriving DecidableEq, Repr

mutual
/-- atrium's `ThreadViewPost`: a post plus at most one parent hop and one
reply page (the client always fetches with `depth = 1`, `parent_height = 1`). -/
inductive ThreadViewPost where
  | mk (post : PostView) (parent : Option ThreadViewPostParentRefs)
      (replies : Option (List ThreadViewPostRepliesItem))

/-- atrium's `ThreadViewPostParentRefs` union. -/
inductive ThreadViewPostParentRefs where
  | threadViewPost (view : ThreadViewPost)
  | notFoundPost
  | blockedPost

/-- atrium's `ThreadViewPostRepliesItem` union. -/
inductive ThreadViewPostRepliesItem where
  | threadViewPost (view : ThreadViewPost)
  | notFoundPost
  | blockedPost
end

def ThreadViewPost.post : ThreadViewPost → PostView
  | .mk p _ _ => p

def ThreadViewPost.parent : ThreadViewPost → Option ThreadViewPostParentRefs
  | .mk _ par _ => par

def ThreadViewPost.replies : ThreadViewPost → Option (List ThreadViewPostRepliesItem)
  | .mk _ _ r => r

/-- `ClientError` from `client.rs` (the `Http` payload is kept abstract). -/
inductive ClientError where
  | http (msg : String)
  | notFound
  | blocked
  | rateLimited
  | api (msg : String)
  | invalidResponse
deriving DecidableEq, Repr

/-- atrium's `OutputThreadRefs` union returned by `get_post_thread`
(`unknown` stands for the unmatched variants of the union). -/
inductive OutputThreadRefs where
  | threadViewPost (view : ThreadViewPost)
  | notFoundPost
  | blockedPost
  | unknown

/-- The raw `get_post_thread` capability: one shallow fetch per call. -/
def FetchApi : Type := String → Except ClientError OutputThreadRefs

/-- The `resolve_handle` capability: handle to DID. -/
def ResolveApi : Type := String → Except ClientError String

/-- `fetch_post_thread_shallow` (`client.rs`): performs one shallow fetch and
maps the thread union onto `ThreadViewPost` / `NotFound` / `Blocked` /
`InvalidResponse`. -/
def fetch_post_thread_shallow (api : FetchApi) (at_uri : String) :
    Except ClientError ThreadViewPost :=
  match api at_uri with
  | .error e => .error e
  | .ok (.threadViewPost view) => .ok view
  | .ok .notFoundPost => .error .notFound
  | .ok .blockedPost => .error .blocked
  | .ok .unknown => .error .invalidResponse

/-- `get_parent_uri_if_same_author` (`client.rs`): the parent's URI, provided
the parent is a `ThreadViewPost` whose author DID equals `author_did`. -/
def get_parent_uri_if_same_author (view : ThreadViewPost) (author_did : String) :
    Option String :=
  match view.parent with
  | some (.threadViewPost parent) =>
      if parent.post.author.did = author_did then some parent.post.uri else none
  | _ => none

/-- The reply scan inside `find_self_reply`: first `ThreadViewPost` item whose
author DID equals `author_did`, in the order the API returned the replies. -/
def findSelfReplyIn (author_did : String) :
    List ThreadViewPostRepliesItem → Option String
  | [] => none
  | .threadViewPost reply_view :: rest =>
      if reply_view.post.author.did = author_did then some reply_view.post.uri
      else findSelfReplyIn author_did rest
  | _ :: rest => findSelfReplyIn author_did rest

/-- `find_self_reply` (`client.rs`): URI of the first self-reply among the
post's replies. -/
def find_self_reply (view : ThreadViewPost) (author_did : String) : Option String :=
  match view.replies with
  | none => none
  | some replies => findSelfReplyIn author_did replies

/-- `find_root_uri_async` (`client.rs`): walk up same-author parents one fetch
at a time; `fuel` bounds the number of loop iterations (= fetches), `none`
means the loop was still running when the fuel ran out. -/
def find_root_uri_async (api : FetchApi) :
    Nat → String → Option (Except ClientError String)
  | 0, _ => none
  | fuel + 1, current_uri =>
    match fetch_post_thread_shallow api current_uri with
    | .error e => some (.error e)
    | .ok view =>
      match get_parent_uri_if_same_author view view.post.author.did with
      | some parent_uri => find_root_uri_async api fuel parent_uri
      | none => some (.ok current_uri)

/-- `ThreadPost` as built by `extract_post` in `client.rs` (the copy of
`types.rs` in this snapshot predates the `langs` field that `extract_post`
populates, so the field set here follows `client.rs`). -/
structure ThreadPost where
  uri : String
  cid : String
  text : String
  created_at : Int
  reply_count : Option Nat
  repost_count : Option Nat
  like_count : Option Nat
  embed : Option Embed
  langs : List String
deriving DecidableEq, Repr

/-- `Thread` from `src/bluesky/types.rs`. -/
structure Thread where
  posts : List ThreadPost
  author : Author
deriving DecidableEq, Repr

/-- `extract_author` (`client.rs`): copies the author fields of the view's
post (total here; the Rust version's `Result` is always `Ok`). -/
def extract_author (view : ThreadViewPost) : Author :=
  { did := view.post.author.did
    handle := view.post.author.handle
    display_name := view.post.author.display_name
    avatar_url := view.post.author.avatar_url }

/-- `extract_post` (`client.rs`): projects a view onto a `ThreadPost`
(total here because the record is pre-parsed, see `PostRecord`). -/
def extract_post (view : ThreadViewPost) : ThreadPost :=
  { uri := view.post.uri
    cid := view.post.cid
    text := view.post.record.text
    created_at := view.post.record.created_at
    reply_count := view.post.reply_count
    repost_count := view.post.repost_count
    like_count := view.post.like_count
    embed := view.post.embed
    langs := view.post.record.langs }

/-- The `loop` inside `get_thread` (`client.rs`): fetch the current URI,
append its projection, follow the first self-reply if any.  `acc` is the
(`posts`) accumulator; fuel bounds the iterations. -/
def walk_forward (api : FetchApi) (author_did : String) :
    Nat → String → List ThreadPost → Option (Except ClientError (List ThreadPost))
  | 0, _, _ => none
  | fuel + 1, current_uri, acc =>
    match fetch_post_thread_shallow api current_uri with
    | .error e => some (.error e)
    | .ok view =>
      match find_self_reply view author_did with
      | some reply_uri =>
          walk_forward api author_did fuel reply_uri (acc ++ [extract_post view])
      | none => some (.ok (acc ++ [extract_post view]))

/-- `get_thread` (`client.rs`): locate the root, re-fetch it, then follow
self-replies collecting posts.  The same fuel bounds both loops. -/
def get_thread (api : FetchApi) (fuel : Nat) (at_uri : String) :
    Option (Except ClientError Thread) :=
  match find_root_uri_async api fuel at_uri with
  | none => none
  | some (.error e) => some (.error e)
  | some (.ok root_uri) =>
    match fetch_post_thread_shallow api root_uri with
    | .error e => some (.error e)
    | .ok root_view =>
      let author_did := root_view.post.author.did
      let author := extract_author root_view
      let posts := [extract_post root_view]
      match find_self_reply root_view author_did with
      | none => some (.ok { posts := posts, author := author })
      | some uri =>
        match walk_forward api author_did fuel uri posts with
        | none => none
        | some (.error e) => some (.error e)
        | some (.ok posts') => some (.ok { posts := posts', author := author })

/-- `get_thread_by_handle` (`client.rs`): resolve the handle to a DID, build
the at-uri, assemble the thread. -/
def get_thread_by_handle (resolve : ResolveApi) (api : FetchApi) (fuel : Nat)
    (handle post_id : String) : Option (Except ClientError Thread) :=
  match resolve handle with
  | .error e => some (.error e)
  | .ok did =>
      get_thread api fuel ("at://" ++ did ++ "/app.bsky.feed.post/" ++ post_id)

/-- `StreamEvent`: `Header(Author)` / `Post(ThreadPost)` / `Done`.  Its
definition is missing from this snapshot of `types.rs`; the constructors are
fixed by its uses in `client.rs` and `handlers.rs`. -/
inductive StreamEvent where
  | header (author : Author)
  | post (post : ThreadPost)
  | done
deriving DecidableEq, Repr

/-- The `while let` loop of `get_thread_streaming` (`client.rs`): given the
current self-reply cursor, produce the remaining stream items.  In
`async_stream::try_stream!` an error is yielded as a final `Err` item and
the stream ends. -/
def stream_walk (api : FetchApi) (author_did : String) :
    Nat → Option String → Option (List (Except ClientError StreamEvent))
  | _, none => some [.ok .done]
  | 0, some _ => none
  | fuel + 1, some uri =>
    match fetch_post_thread_shallow api uri with
    | .error e => some [.error e]
    | .ok view =>
      match stream_walk api author_did fuel (find_self_reply view author_did) with
      | none => none
      | some rest => some (.ok (.post (extract_post view)) :: rest)

/-- `get_thread_streaming` (`client.rs`): the full item sequence of the event
stream (errors appear as a final `Err` item, as `try_stream!` produces). -/
def get_thread_streaming (resolve : ResolveApi) (api : FetchApi) (fuel : Nat)
    (handle post_id : String) : Option (List (Except ClientError StreamEvent)) :=
  match resolve handle with
  | .error e => some [.error e]
  | .ok did =>
    let at_uri := "at://" ++ did ++ "/app.bsky.feed.post/" ++ post_id
    match find_root_uri_async api fuel at_uri with
    | none => none
    | some (.error e) => some [.error e]
    | some (.ok root_uri) =>
      match fetch_post_thread_shallow api root_uri with
      | .error e => some [.error e]
      | .ok root_view =>
        let author := extract_author root_view
        let author_did := author.did
        match stream_walk api author_did fuel (find_self_reply root_view author_did) with
        | none => none
        | some rest =>
            some (.ok (.header author) :: .ok (.post (extract_post root_view)) :: rest)

/-! ## Handler model (`src/handlers.rs`, `src/config.rs`) -/

/-- Default of `POLL_DISABLE_AFTER_SECONDS` in `Config::from_env`
(`config.rs`). -/
def POLL_DISABLE_AFTER_DEFAULT : Nat := 1800

/-- The response of `get_thread_updates` (`handlers.rs`) once the thread has
been fetched: either `204 No Content` with the `X-Thread-Stale` header, or
`200 OK` with the new posts, the `X-Last-CID` and `X-Post-Count` headers and
`X-Thread-Stale: false`. -/
inductive UpdatesResponse where
  | noContent (thread_stale : Bool)
  | newPosts (posts : List ThreadPost) (last_cid : String) (post_count : Nat)
      (thread_stale : Bool)
deriving DecidableEq, Repr

/-- The pure core of `get_thread_updates` (`handlers.rs`), applied to the
already-assembled thread: diff against `since_cid`, compute the staleness
flag from the last post's age relative to `now` (Unix seconds) and
`poll_disable_after`. -/
def get_thread_updates_core (thread : Thread) (since_cid : String) (now : Int)
    (poll_disable_after : Nat) : UpdatesResponse :=
  let last_post_time := thread.posts.getLast?.map (fun p => p.created_at)
  let since_idx := thread.posts.findIdx? (fun p => p.cid = since_cid)
  let new_posts : List ThreadPost :=
    match since_idx with
    | some idx => thread.posts.drop (idx + 1)
    | none => thread.posts
  match new_posts.getLast? with
  | none =>
    let is_stale :=
      match last_post_time with
      | some ts => decide (now - ts ≥ (poll_disable_after : Int))
      | none => true
    .noContent is_stale
  | some last_post =>
      .newPosts new_posts last_post.cid new_posts.length false

/-! ## Spec-level predicates used to state the claims -/

/-- The upward same-author parent path: `RootPath api n start root` says that
from `start`, `n` successful same-author parent hops reach `root`, whose
parent is absent, not a `ThreadViewPost`, or by a different author. -/
inductive RootPath (api : FetchApi) : Nat → String → String → Prop where
  | here (u : String) (v : ThreadViewPost) :
      fetch_post_thread_shallow api u = .ok v →
      get_parent_uri_if_same_author v v.post.author.did = none →
      RootPath api 0 u u
  | up (n : Nat) (u : String) (v : ThreadViewPost) (u' r : String) :
      fetch_post_thread_shallow api u = .ok v →
      get_parent_uri_if_same_author v v.post.author.did = some u' →
      RootPath api n u' r →
      RootPath api (n + 1) u r

/-- The forward self-reply chain: `WalkChain api did u vs` says fetching `u`
gives the first view of `vs` and each view's first self-reply (for author
`did`) leads to the next, the last view having no self-reply. -/
inductive WalkChain (api : FetchApi) (did : String) : String → List ThreadViewPost → Prop where
  | last (u : String) (v : ThreadViewPost) :
      fetch_post_thread_shallow api u = .ok v →
      find_self_reply v did = none →
      WalkChain api did u [v]
  | step (u : String) (v : ThreadViewPost) (u' : String) (vs : List ThreadViewPost) :
      fetch_post_thread_shallow api u = .ok v →
      find_self_reply v did = some u' →
      WalkChain api did u' vs →
      WalkChain api did u (v :: vs)

/-- An error-terminated forward walk: `WalkChainErr api did u vs e` says that
starting at `u`, the walk successfully fetches exactly the views `vs` (each
view's first self-reply for author `did` leading to the next fetch) and the
fetch after the last view of `vs` fails with `e`. -/
inductive WalkChainErr (api : FetchApi) (did : String) :
    String → List ThreadViewPost → ClientError → Prop where
  | fail (u : String) (e : ClientError) :
      fetch_post_thread_shallow api u = .error e →
      WalkChainErr api did u [] e
  | step (u : String) (v : ThreadViewPost) (u' : String)
      (vs : List ThreadViewPost) (e : ClientError) :
      fetch_post_thread_shallow api u = .ok v →
      find_self_reply v did = some u' →
      WalkChainErr api did u' vs e →
      WalkChainErr api did u (v :: vs) e

/-- A reply item is a same-author (`did`) `ThreadViewPost`. -/
def isSelfReplyItem (did : String) : ThreadViewPostRepliesItem → Bool
  | .threadViewPost v => v.post.author.did = did
  | _ => false

/-- Consistency of the fetch capability with a fixed authorship map: the view
fetched at a URI is authored by `authorOf` of that URI, and every reply item
carried inside a fetched view is authored by `authorOf` of its own URI.
This models the remote API being an honest single source of truth. -/
structure ApiConsistent (api : FetchApi) (authorOf : String → String) : Prop where
  fetch_author : ∀ u v, fetch_post_thread_shallow api u = .ok v →
      v.post.author.did = authorOf u
  reply_author : ∀ u v, fetch_post_thread_shallow api u = .ok v →
      ∀ items, v.replies = some items →
      ∀ rv, ThreadViewPostRepliesItem.threadViewPost rv ∈ items →
      rv.post.author.did = authorOf rv.post.uri

/-- Rewriting of display handles (by an arbitrary `f`) down to `depth` levels
of the view tree, leaving every other field (DIDs, URIs, ...) unchanged;
used to state that the author comparison never consults handles. -/
def Author.mapHandle (f : String → String) (a : Author) : Author :=
  { a with handle := f a.handle }

def PostView.mapHandle (f : String → String) (p : PostView) : PostView :=
  { p with author := Author.mapHandle f p.author }

mutual
def ThreadViewPost.mapHandles (f : String → String) :
    Nat → ThreadViewPost → ThreadViewPost
  | 0, .mk p par rep => .mk (PostView.mapHandle f p) par rep
  | depth + 1, .mk p par rep =>
      .mk (PostView.mapHandle f p)
        (par.map (ThreadViewPostParentRefs.mapHandles f depth))
        (rep.map (fun items => items.map (ThreadViewPostRepliesItem.mapHandles f depth)))

def ThreadViewPostParentRefs.mapHandles (f : String → String) :
    Nat → ThreadViewPostParentRefs → ThreadViewPostParentRefs
  | depth, .threadViewPost v => .threadViewPost (ThreadViewPost.mapHandles f depth v)
  | _, .notFoundPost => .notFoundPost
  | _, .blockedPost => .blockedPost

def ThreadViewPostRepliesItem.mapHandles (f : String → String) :
    Nat → ThreadViewPostRepliesItem → ThreadViewPostRepliesItem
  | depth, .threadViewPost v => .threadViewPost (ThreadViewPost.mapHandles f depth v)
  | _, .notFoundPost => .notFoundPost
  | _, .blockedPost => .blockedPost
end

/-! ## A concrete five-post chain (used by the witnesses) -/

def cAuthor : Author :=
  { did := "did:plc:alice", handle := "alice.test", display_name := none,
    avatar_url := none }

def cUri : Nat → String
  | n => "at://did:plc:alice/app.bsky.feed.post/p" ++ toString n

def cPostView (n : Nat) : PostView :=
  { uri := cUri n, cid := "c" ++ toString n, author := cAuthor,
    record := { text := "post " ++ toString n, created_at := 0, langs := [] },
    reply_count := none, repost_count := none, like_count := none, embed := none }

/-- The shallow leaf view of post `n` (no context), as it appears nested
inside the parent/replies of a fetched view. -/
def cLeaf (n : Nat) : ThreadViewPost := .mk (cPostView n) none none

/-- The shallow fetched view of post `n` in a five-post chain: parent is
post `n - 1` (absent for the first post), replies are `[post (n + 1)]`
(absent for the fifth). -/
def cView (n : Nat) : ThreadViewPost :=
  .mk (cPostView n)
    (if n = 1 then none else some (.threadViewPost (cLeaf (n - 1))))
    (if n = 5 then none else some [.threadViewPost (cLeaf (n + 1))])

/-- A well-behaved fetch capability serving the five-post chain. -/
def cApi : FetchApi := fun u =>
  if u = cUri 1 then .ok (.threadViewPost (cView 1))
  else if u = cUri 2 then .ok (.threadViewPost (cView 2))
  else if u = cUri 3 then .ok (.threadViewPost (cView 3))
  else if u = cUri 4 then .ok (.threadViewPost (cView 4))
  else if u = cUri 5 then .ok (.threadViewPost (cView 5))
  else .error .notFound

/-- The same chain, except the fetch of the third post is rate limited. -/
def cApiFail : FetchApi := fun u =>
  if u = cUri 3 then .error .rateLimited else cApi u

def cResolve : ResolveApi := fun h =>
  if h = "alice.test" then .ok "did:plc:alice" else .error .notFound

def cThreadPost (n : Nat) : ThreadPost := extract_post (cView n)

/-- The thread assembled from the concrete five-post chain. -/
def cThread5 : Thread :=
  { posts := [cThreadPost 1, cThreadPost 2, cThreadPost 3, cThreadPost 4,
      cThreadPost 5], author := cAuthor }

/-- The one-post thread assembled from `cRootOnlyApi`. -/
def cThread1 : Thread :=
  { posts := [extract_post (ThreadViewPost.mk (cPostView 1) none none)],
    author := extract_author (ThreadViewPost.mk (cPostView 1) none none) }

/-- A one-post thread whose only post (cid `c1`) was created at time 0. -/
def cStaleThread : Thread := { posts := [cThreadPost 1], author := cAuthor }

/-- A single post with no parent and no replies; fetches of anything else
fail.  Used as a minimal world for the termination witness. -/
def cRootOnlyApi : FetchApi := fun u =>
  if u = cUri 1 then .ok (.threadViewPost (.mk (cPostView 1) none none))
  else .error .notFound

/-- A view whose parent is itself (same author, same URI): a one-post cycle. -/
def cCycleView : ThreadViewPost :=
  .mk (cPostView 1) (some (.threadViewPost (cLeaf 1))) none

/-- A fetch capability realising a cyclic parent chain. -/
def cCycleApi : FetchApi := fun _ => .ok (.threadViewPost cCycleView)

/-- A post with two same-author replies (a branching self-reply). -/
def cBranchView : ThreadViewPost :=
  .mk (cPostView 1) none
    (some [.threadViewPost (cLeaf 2), .threadViewPost (cLeaf 3)])

/-! ## Helper lemmas -/

theorem find_root_of_rootPath {api : FetchApi} {n : Nat} {start root : String}
    (h : RootPath api n start root) :
    ∀ fuel, n < fuel → find_root_uri_async api fuel start = some (.ok root) := by
  induction h with
  | here u v hf hp =>
    intro fuel hfuel
    match fuel, hfuel with
    | fuel + 1, _ => simp [find_root_uri_async, hf, hp]
  | up n u v u' r hf hp _ ih =>
    intro fuel hfuel
    match fuel, hfuel with
    | fuel + 1, hfuel =>
      have hn : n < fuel := Nat.lt_of_succ_lt_succ hfuel
      simp [find_root_uri_async, hf, hp, ih fuel hn]

theorem findSelfReplyIn_first {did : String} :
    ∀ (pre : List ThreadViewPostRepliesItem) (rv : ThreadViewPost)
      (rest : List ThreadViewPostRepliesItem),
      (∀ x ∈ pre, isSelfReplyItem did x = false) →
      rv.post.author.did = did →
      findSelfReplyIn did (pre ++ .threadViewPost rv :: rest) = some rv.post.uri := by
  intro pre
  induction pre with
  | nil => intro rv rest _ hrv; simp [findSelfReplyIn, hrv]
  | cons x pre ih =>
    intro rv rest hpre hrv
    have hx : isSelfReplyItem did x = false := hpre x (List.mem_cons_self x pre)
    have hpre' : ∀ y ∈ pre, isSelfReplyItem did y = false := fun y hy =>
      hpre y (List.mem_cons_of_mem x hy)
    cases x with
    | threadViewPost v =>
      have hv : ¬ v.post.author.did = did := by
        simpa [isSelfReplyItem] using hx
      simp [findSelfReplyIn, hv, ih rv rest hpre' hrv]
    | notFoundPost => simp [findSelfReplyIn, ih rv rest hpre' hrv]
    | blockedPost => simp [findSelfReplyIn, ih rv rest hpre' hrv]

theorem findSelfReplyIn_eq_some {did u' : String} :
    ∀ items : List ThreadViewPostRepliesItem,
      findSelfReplyIn did items = some u' →
      ∃ rv, ThreadViewPostRepliesItem.threadViewPost rv ∈ items ∧
        rv.post.author.did = did ∧ u' = rv.post.uri := by
  intro items
  induction items with
  | nil => intro h; simp [findSelfReplyIn] at h
  | cons x rest ih =>
    intro h
    cases x with
    | threadViewPost v =>
      by_cases hv : v.post.author.did = did
      · refine ⟨v, List.mem_cons_self _ _, hv, ?_⟩
        simp [findSelfReplyIn, hv] at h
        exact h.symm
      · simp only [findSelfReplyIn, if_neg hv] at h
        obtain ⟨rv, hm, hd, hu⟩ := ih h
        exact ⟨rv, List.mem_cons_of_mem _ hm, hd, hu⟩
    | notFoundPost =>
      simp only [findSelfReplyIn] at h
      obtain ⟨rv, hm, hd, hu⟩ := ih h
      exact ⟨rv, List.mem_cons_of_mem _ hm, hd, hu⟩
    | blockedPost =>
      simp only [findSelfReplyIn] at h
      obtain ⟨rv, hm, hd, hu⟩ := ih h
      exact ⟨rv, List.mem_cons_of_mem _ hm, hd, hu⟩

theorem find_self_reply_eq_some {v : ThreadViewPost} {did u' : String}
    (h : find_self_reply v did = some u') :
    ∃ items rv, v.replies = some items ∧
      ThreadViewPostRepliesItem.threadViewPost rv ∈ items ∧
      rv.post.author.did = did ∧ u' = rv.post.uri := by
  unfold find_self_reply at h
  cases hr : v.replies with
  | none => rw [hr] at h; cases h
  | some items =>
    rw [hr] at h
    obtain ⟨rv, hm, hd, hu⟩ := findSelfReplyIn_eq_some items h
    exact ⟨items, rv, rfl, hm, hd, hu⟩

theorem walk_forward_of_chain {api : FetchApi} {did u : String}
    {vs : List ThreadViewPost} (h : WalkChain api did u vs) :
    ∀ fuel acc, vs.length ≤ fuel →
      walk_forward api did fuel u acc = some (.ok (acc ++ vs.map extract_post)) := by
  induction h with
  | last u v hf hn =>
    intro fuel acc hfuel
    match fuel, hfuel with
    | fuel + 1, _ => simp [walk_forward, hf, hn]
  | step u v u' vs hf hs _ ih =>
    intro fuel acc hfuel
    match fuel, hfuel with
    | fuel + 1, hfuel =>
      have hlen : vs.length ≤ fuel := Nat.le_of_succ_le_succ hfuel
      simp only [walk_forward, hf, hs]
      rw [ih fuel (acc ++ [extract_post v]) hlen]
      simp

theorem walk_forward_ok_elim {api : FetchApi} {did : String} :
    ∀ fuel (u : String) (acc posts : List ThreadPost),
      walk_forward api did fuel u acc = some (.ok posts) →
      ∃ vs, WalkChain api did u vs ∧ posts = acc ++ vs.map extract_post ∧
        vs.length ≤ fuel := by
  intro fuel
  induction fuel with
  | zero => intro u acc posts h; simp [walk_forward] at h
  | succ fuel ih =>
    intro u acc posts h
    unfold walk_forward at h
    cases hfetch : fetch_post_thread_shallow api u with
    | error e => simp [hfetch] at h
    | ok v =>
      simp only [hfetch] at h
      cases hfind : find_self_reply v did with
      | some u' =>
        simp only [hfind] at h
        obtain ⟨vs, hc, hp, hl⟩ := ih u' (acc ++ [extract_post v]) posts h
        refine ⟨v :: vs, WalkChain.step u v u' vs hfetch hfind hc, ?_, ?_⟩
        · simp [hp]
        · exact Nat.succ_le_succ hl
      | none =>
        simp only [hfind, Option.some.injEq, Except.ok.injEq] at h
        subst h
        exact ⟨[v], WalkChain.last u v hfetch hfind, by simp,
          Nat.succ_le_succ (Nat.zero_le _)⟩

theorem stream_walk_of_chain {api : FetchApi} {did u : String}
    {vs : List ThreadViewPost} (h : WalkChain api did u vs) :
    ∀ fuel, vs.length ≤ fuel →
      stream_walk api did fuel (some u) =
        some (vs.map (fun v => Except.ok (StreamEvent.post (extract_post v))) ++
          [.ok .done]) := by
  induction h with
  | last u v hf hn =>
    intro fuel hfuel
    match fuel, hfuel with
    | fuel + 1, _ => simp [stream_walk, hf, hn]
  | step u v u' vs hf hs _ ih =>
    intro fuel hfuel
    match fuel, hfuel with
    | fuel + 1, hfuel =>
      have hlen : vs.length ≤ fuel := Nat.le_of_succ_le_succ hfuel
      simp [stream_walk, hf, hs, ih fuel hlen]

theorem walk_forward_err_stream {api : FetchApi} {did : String} :
    ∀ fuel (u : String) (acc : List ThreadPost) (e : ClientError),
      walk_forward api did fuel u acc = some (.error e) →
      ∃ vs : List ThreadViewPost, WalkChainErr api did u vs e ∧
        stream_walk api did fuel (some u) =
          some (vs.map (fun v => Except.ok (StreamEvent.post (extract_post v))) ++
            [.error e]) := by
  intro fuel
  induction fuel with
  | zero => intro u acc e h; simp [walk_forward] at h
  | succ fuel ih =>
    intro u acc e h
    unfold walk_forward at h
    cases hfetch : fetch_post_thread_shallow api u with
    | error e' =>
      simp only [hfetch, Option.some.injEq, Except.error.injEq] at h
      subst h
      exact ⟨[], WalkChainErr.fail u e' hfetch, by simp [stream_walk, hfetch]⟩
    | ok v =>
      simp only [hfetch] at h
      cases hfind : find_self_reply v did with
      | some u' =>
        simp only [hfind] at h
        obtain ⟨vs, hchain, hs⟩ := ih u' (acc ++ [extract_post v]) e h
        exact ⟨v :: vs, WalkChainErr.step u v u' vs e hfetch hfind hchain,
          by simp [stream_walk, hfetch, hfind, hs]⟩
      | none => simp [hfind] at h

theorem stream_walk_done_chain {api : FetchApi} {did : String} :
    ∀ fuel (u : String) (evs : List (Except ClientError StreamEvent)),
      stream_walk api did fuel (some u) = some evs →
      Except.ok StreamEvent.done ∈ evs →
      ∃ ws : List ThreadViewPost, WalkChain api did u ws ∧
        evs = ws.map (fun v => Except.ok (StreamEvent.post (extract_post v))) ++
          [.ok .done] := by
  intro fuel
  induction fuel with
  | zero => intro u evs h _; simp [stream_walk] at h
  | succ fuel ih =>
    intro u evs h hmem
    unfold stream_walk at h
    cases hfetch : fetch_post_thread_shallow api u with
    | error e =>
      simp only [hfetch, Option.some.injEq] at h
      subst h
      simp at hmem
    | ok v =>
      simp only [hfetch] at h
      cases hfind : find_self_reply v did with
      | none =>
        simp only [hfind] at h
        have hsw : stream_walk api did fuel none =
            some [Except.ok StreamEvent.done] := by simp [stream_walk]
        simp only [hsw, Option.some.injEq] at h
        subst h
        exact ⟨[v], WalkChain.last u v hfetch hfind, by simp⟩
      | some u' =>
        simp only [hfind] at h
        cases hrest : stream_walk api did fuel (some u') with
        | none => simp [hrest] at h
        | some rest =>
          simp only [hrest, Option.some.injEq] at h
          subst h
          have hmem' : Except.ok StreamEvent.done ∈ rest := by simpa using hmem
          obtain ⟨ws, hchain, hrest_eq⟩ := ih u' rest hrest hmem'
          exact ⟨v :: ws, WalkChain.step u v u' ws hfetch hfind hchain,
            by simp [hrest_eq]⟩

theorem get_thread_ok_decomp {api : FetchApi} {fuel : Nat} {at_uri : String}
    {t : Thread} (h : get_thread api fuel at_uri = some (.ok t)) :
    ∃ root_uri root_view vs,
      find_root_uri_async api fuel at_uri = some (.ok root_uri) ∧
      fetch_post_thread_shallow api root_uri = .ok root_view ∧
      WalkChain api root_view.post.author.did root_uri (root_view :: vs) ∧
      t.posts = (root_view :: vs).map extract_post ∧
      t.author = extract_author root_view ∧
      vs.length ≤ fuel := by
  unfold get_thread at h
  cases hroot : find_root_uri_async api fuel at_uri with
  | none => simp [hroot] at h
  | some res =>
    cases res with
    | error e => simp [hroot] at h
    | ok root_uri =>
      simp only [hroot] at h
      cases hfetch : fetch_post_thread_shallow api root_uri with
      | error e => simp [hfetch] at h
      | ok root_view =>
        simp only [hfetch] at h
        cases hfind : find_self_reply root_view root_view.post.author.did with
        | none =>
          simp only [hfind, Option.some.injEq, Except.ok.injEq] at h
          subst h
          exact ⟨root_uri, root_view, [], rfl, hfetch,
            WalkChain.last _ _ hfetch hfind, by simp, rfl, Nat.zero_le _⟩
        | some uri =>
          simp only [hfind] at h
          cases hw : walk_forward api root_view.post.author.did fuel uri
              [extract_post root_view] with
          | none => simp [hw] at h
          | some res' =>
            cases res' with
            | error e => simp [hw] at h
            | ok posts' =>
              simp only [hw, Option.some.injEq, Except.ok.injEq] at h
              obtain ⟨vs, hc, hp, hl⟩ :=
                walk_forward_ok_elim fuel uri [extract_post root_view] posts' hw
              subst h
              refine ⟨root_uri, root_view, vs, rfl, hfetch,
                WalkChain.step root_uri root_view uri vs hfetch hfind hc, ?_, rfl, hl⟩
              rw [hp]; simp

theorem get_thread_posts_ne_nil {api : FetchApi} {fuel : Nat} {at_uri : String}
    {t : Thread} (h : get_thread api fuel at_uri = some (.ok t)) :
    t.posts ≠ [] := by
  obtain ⟨_, _, _, _, _, _, hp, _, _⟩ := get_thread_ok_decomp h
  rw [hp]; simp

theorem chain_authors {api : FetchApi} {authorOf : String → String} {did : String}
    (hc : ApiConsistent api authorOf) :
    ∀ {u : String} {vs : List ThreadViewPost}, WalkChain api did u vs →
      authorOf u = did → ∀ v ∈ vs, v.post.author.did = did := by
  intro u vs h
  induction h with
  | last u v hf _ =>
    intro hu w hw
    rw [List.mem_singleton] at hw
    subst hw
    rw [hc.fetch_author u w hf]
    exact hu
  | step u v u' vs hf hs _ ih =>
    intro hu w hw
    rcases List.mem_cons.mp hw with rfl | hw'
    · rw [hc.fetch_author u w hf]; exact hu
    · obtain ⟨items, rv, hrep, hmem, hdid, huri⟩ := find_self_reply_eq_some hs
      have h1 := hc.reply_author u v hf items hrep rv hmem
      have h2 : authorOf u' = did := by rw [huri, ← h1]; exact hdid
      exact ih h2 w hw'

theorem mapHandles_post_did (f : String → String) (d : Nat) (v : ThreadViewPost) :
    (ThreadViewPost.mapHandles f d v).post.author.did = v.post.author.did := by
  cases v with
  | mk p par rep =>
    cases d <;>
      simp [ThreadViewPost.mapHandles, ThreadViewPost.post, PostView.mapHandle,
        Author.mapHandle]

theorem mapHandles_post_uri (f : String → String) (d : Nat) (v : ThreadViewPost) :
    (ThreadViewPost.mapHandles f d v).post.uri = v.post.uri := by
  cases v with
  | mk p par rep =>
    cases d <;>
      simp [ThreadViewPost.mapHandles, ThreadViewPost.post, PostView.mapHandle,
        Author.mapHandle]

theorem get_parent_uri_mapHandles (f : String → String) (d : Nat)
    (v : ThreadViewPost) (did : String) :
    get_parent_uri_if_same_author (ThreadViewPost.mapHandles f d v) did =
      get_parent_uri_if_same_author v did := by
  cases v with
  | mk p par rep =>
    cases d with
    | zero =>
      simp [ThreadViewPost.mapHandles, get_parent_uri_if_same_author,
        ThreadViewPost.parent]
    | succ d =>
      cases par with
      | none =>
        simp [ThreadViewPost.mapHandles, get_parent_uri_if_same_author,
          ThreadViewPost.parent]
      | some pr =>
        cases pr with
        | threadViewPost q =>
          simp [ThreadViewPost.mapHandles, ThreadViewPostParentRefs.mapHandles,
            get_parent_uri_if_same_author, ThreadViewPost.parent,
            mapHandles_post_did, mapHandles_post_uri]
        | notFoundPost =>
          simp [ThreadViewPost.mapHandles, ThreadViewPostParentRefs.mapHandles,
            get_parent_uri_if_same_author, ThreadViewPost.parent]
        | blockedPost =>
          simp [ThreadViewPost.mapHandles, ThreadViewPostParentRefs.mapHandles,
            get_parent_uri_if_same_author, ThreadViewPost.parent]

/-! ## Claim theorems -/

/-- C1: `find_root_uri_async` returns the first post reached from the start by
repeatedly following same-author parents (the ancestor whose parent is
absent, not a post, or foreign-authored); a parent is followed iff its
author DID equals the current post's author DID, and rewriting display
handles (at any depth) never changes the parent-following decision. -/
theorem root_locator_follows_same_author_parents :
    (∀ (api : FetchApi) (n : Nat) (start root : String) (fuel : Nat),
      RootPath api n start root → n < fuel →
      find_root_uri_async api fuel start = some (.ok root)) ∧
    (∀ (view : ThreadViewPost) (did : String),
      (∃ u, get_parent_uri_if_same_author view did = some u) ↔
      (∃ parent, view.parent = some (.threadViewPost parent) ∧
        parent.post.author.did = did)) ∧
    (∀ (f : String → String) (depth : Nat) (view : ThreadViewPost) (did : String),
      get_parent_uri_if_same_author (ThreadViewPost.mapHandles f depth view) did =
        get_parent_uri_if_same_author view did) := by
  refine ⟨?_, ?_, ?_⟩
  · intro api n start root fuel h hf
    exact find_root_of_rootPath h fuel hf
  · intro view did
    constructor
    · rintro ⟨u, hu⟩
      unfold get_parent_uri_if_same_author at hu
      cases hp : view.parent with
      | none => simp [hp] at hu
      | some pr =>
        cases pr with
        | threadViewPost parent =>
          simp only [hp] at hu
          by_cases hd : parent.post.author.did = did
          · exact ⟨parent, rfl, hd⟩
          · simp [hd] at hu
        | notFoundPost => simp [hp] at hu
        | blockedPost => simp [hp] at hu
    · rintro ⟨parent, hp, hd⟩
      exact ⟨parent.post.uri, by simp [get_parent_uri_if_same_author, hp, hd]⟩
  · exact fun f depth view did => get_parent_uri_mapHandles f depth view did

/-- Witness for C1 on the concrete five-post chain: starting at the third
post, the located root is the first post. -/
theorem root_locator_follows_same_author_parents_witness :
    find_root_uri_async cApi 10 (cUri 3) = some (.ok (cUri 1)) := by
  have hpath : RootPath cApi 2 (cUri 3) (cUri 1) :=
    RootPath.up 1 (cUri 3) (cView 3) (cUri 2) (cUri 1) rfl rfl
      (RootPath.up 0 (cUri 2) (cView 2) (cUri 1) (cUri 1) rfl rfl
        (RootPath.here (cUri 1) (cView 1) rfl rfl))
  exact root_locator_follows_same_author_parents.1 cApi 2 (cUri 3) (cUri 1) 10
    hpath (by decide)

/-- C2: the walk loop of `get_thread` visits every post of a known self-reply
chain exactly once in reply order and stops when no self-reply exists; and
`find_self_reply` picks the first reply (in API order) authored by the chain
author, regardless of what follows it (branches are ignored). -/
theorem chain_walker_visits_chain_in_order :
    (∀ (api : FetchApi) (did u : String) (vs : List ThreadViewPost) (fuel : Nat)
      (acc : List ThreadPost), WalkChain api did u vs → vs.length ≤ fuel →
      walk_forward api did fuel u acc = some (.ok (acc ++ vs.map extract_post))) ∧
    (∀ (did : String) (view : ThreadViewPost)
      (pre : List ThreadViewPostRepliesItem) (rv : ThreadViewPost)
      (rest : List ThreadViewPostRepliesItem),
      view.replies = some (pre ++ .threadViewPost rv :: rest) →
      (∀ x ∈ pre, isSelfReplyItem did x = false) →
      rv.post.author.did = did →
      find_self_reply view did = some rv.post.uri) := by
  constructor
  · intro api did u vs fuel acc h hl
    exact walk_forward_of_chain h fuel acc hl
  · intro did view pre rv rest hrep hpre hdid
    unfold find_self_reply
    simp only [hrep]
    exact findSelfReplyIn_first pre rv rest hpre hdid

/-- Witness for C2: the concrete five-post chain is walked in order, and for
a post with two same-author replies the first one is followed. -/
theorem chain_walker_visits_chain_in_order_witness :
    walk_forward cApi "did:plc:alice" 5 (cUri 1) [] =
      some (.ok ([] ++ [cView 1, cView 2, cView 3, cView 4,
        cView 5].map extract_post)) ∧
    find_self_reply cBranchView "did:plc:alice" = some ((cLeaf 2).post.uri) := by
  have hchain : WalkChain cApi "did:plc:alice" (cUri 1)
      [cView 1, cView 2, cView 3, cView 4, cView 5] :=
    WalkChain.step (cUri 1) (cView 1) (cUri 2) _ rfl rfl
      (WalkChain.step (cUri 2) (cView 2) (cUri 3) _ rfl rfl
        (WalkChain.step (cUri 3) (cView 3) (cUri 4) _ rfl rfl
          (WalkChain.step (cUri 4) (cView 4) (cUri 5) _ rfl rfl
            (WalkChain.last (cUri 5) (cView 5) rfl rfl))))
  constructor
  · exact chain_walker_visits_chain_in_order.1 cApi "did:plc:alice" (cUri 1) _ 5 []
      hchain (by decide)
  · exact chain_walker_visits_chain_in_order.2 "did:plc:alice" cBranchView []
      (cLeaf 2) [.threadViewPost (cLeaf 3)] rfl (by intro x hx; cases hx) rfl

/-- C7: the root-locating loop terminates whenever some measure of "distance
to a post without a same-author parent" strictly decreases on every hop (the
loop answers within any fuel above the start's measure); and, as the spec
notes, a cyclic parent chain is not defended against: on a self-parent cycle
the loop never returns, whatever the fuel. -/
theorem root_locator_terminates :
    (∀ (api : FetchApi) (d : String → Nat) (start : String) (fuel : Nat),
      (∀ u v u', fetch_post_thread_shallow api u = .ok v →
        get_parent_uri_if_same_author v v.post.author.did = some u' →
        d u' < d u) →
      d start < fuel → find_root_uri_async api fuel start ≠ none) ∧
    (∀ fuel, find_root_uri_async cCycleApi fuel (cUri 1) = none) := by
  constructor
  · intro api d start fuel hdec
    induction fuel generalizing start with
    | zero => intro hlt; exact absurd hlt (Nat.not_lt_zero _)
    | succ fuel ih =>
      intro hlt
      unfold find_root_uri_async
      cases hf : fetch_post_thread_shallow api start with
      | error e => simp
      | ok v =>
        cases hp : get_parent_uri_if_same_author v v.post.author.did with
        | some u' =>
          have h1 : d u' < d start := hdec start v u' hf hp
          have h2 : d u' < fuel := lt_of_lt_of_le h1 (Nat.lt_succ_iff.mp hlt)
          simp only [hp]
          exact ih u' h2
        | none => simp [hp]
  · have aux : ∀ fuel u, find_root_uri_async cCycleApi fuel u = none := by
      intro fuel
      induction fuel with
      | zero => intro u; rfl
      | succ fuel ih =>
        intro u
        have hf : fetch_post_thread_shallow cCycleApi u = .ok cCycleView := rfl
        have hp : get_parent_uri_if_same_author cCycleView
            cCycleView.post.author.did = some (cUri 1) := rfl
        unfold find_root_uri_async
        simp only [hf, hp]
        exact ih (cUri 1)
    exact fun fuel => aux fuel (cUri 1)

/-- Witness for C7 on a one-post world: with the zero measure and fuel 1 the
locator answers. -/
theorem root_locator_terminates_witness :
    find_root_uri_async cRootOnlyApi 1 (cUri 1) ≠ none := by
  refine root_locator_terminates.1 cRootOnlyApi (fun _ => 0) (cUri 1) 1 ?_ (by decide)
  intro u v u' hf hp
  by_cases hu : u = cUri 1
  · subst hu
    have hv : v = ThreadViewPost.mk (cPostView 1) none none := by
      simpa [fetch_post_thread_shallow, cRootOnlyApi] using hf.symm
    subst hv
    simp [get_parent_uri_if_same_author, ThreadViewPost.parent] at hp
  · simp [fetch_post_thread_shallow, cRootOnlyApi, hu] at hf

/-- C3: whenever the buffered assembly succeeds, the streaming assembly on
the same inputs produces exactly one Header carrying the Thread's author,
then one Post event per Thread post in the same order, then Done. -/
theorem streaming_buffered_equivalence (resolve : ResolveApi) (api : FetchApi)
    (fuel : Nat) (handle post_id : String) (t : Thread)
    (h : get_thread_by_handle resolve api fuel handle post_id = some (.ok t)) :
    get_thread_streaming resolve api fuel handle post_id =
      some (.ok (.header t.author) ::
        t.posts.map (fun p => Except.ok (StreamEvent.post p)) ++ [.ok .done]) := by
  unfold get_thread_by_handle at h
  cases hres : resolve handle with
  | error e => simp [hres] at h
  | ok did =>
    simp only [hres] at h
    obtain ⟨root_uri, root_view, vs, hroot, hfetch, hchain, hposts, hauthor, hlen⟩ :=
      get_thread_ok_decomp h
    have hd : (extract_author root_view).did = root_view.post.author.did := rfl
    unfold get_thread_streaming
    simp only [hres, hroot, hfetch, hd]
    cases hchain with
    | last _ _ _ hn =>
      rw [hn]
      simp only [stream_walk]
      rw [hposts, hauthor]
      simp
    | step _ _ u' vs hf hs hc =>
      rw [hs, stream_walk_of_chain hc fuel hlen]
      rw [hposts, hauthor]
      simp

/-- Witness for C3 on the concrete five-post chain. -/
theorem streaming_buffered_equivalence_witness :
    get_thread_streaming cResolve cApi 10 "alice.test" "p1" =
      some (.ok (.header cThread5.author) ::
        cThread5.posts.map (fun p => Except.ok (StreamEvent.post p)) ++
        [.ok .done]) :=
  streaming_buffered_equivalence cResolve cApi 10 "alice.test" "p1" cThread5
    (by rfl)

/-- C4: an error anywhere during root location or the forward walk makes the
buffered assembly return that error with no partial Thread, and makes the
stream consist of Post events for exactly the posts successfully fetched
before the failing fetch (pinned by `WalkChainErr`), followed by a final
error item, with Done never emitted.  Either the failure precedes the first
post (the stream is just the error item) or the stream is the Header, the
projections of the error-terminated walk's views in fetch order, then the
error. -/
theorem error_aborts_assembly_and_stream (resolve : ResolveApi) (api : FetchApi)
    (fuel : Nat) (handle post_id : String) (e : ClientError)
    (h : get_thread_by_handle resolve api fuel handle post_id = some (.error e)) :
    ∃ evs, get_thread_streaming resolve api fuel handle post_id = some evs ∧
      Except.ok StreamEvent.done ∉ evs ∧
      (evs = [.error e] ∨
        ∃ (did root_uri : String) (root_view : ThreadViewPost)
          (vs : List ThreadViewPost),
          resolve handle = .ok did ∧
          find_root_uri_async api fuel
            ("at://" ++ did ++ "/app.bsky.feed.post/" ++ post_id) =
            some (.ok root_uri) ∧
          WalkChainErr api root_view.post.author.did root_uri
            (root_view :: vs) e ∧
          evs = .ok (.header (extract_author root_view)) ::
            (root_view :: vs).map
              (fun v => Except.ok (StreamEvent.post (extract_post v))) ++
            [.error e]) := by
  unfold get_thread_by_handle at h
  cases hres : resolve handle with
  | error e' =>
    simp only [hres, Option.some.injEq, Except.error.injEq] at h
    subst h
    refine ⟨[.error e'], ?_, by simp, Or.inl rfl⟩
    simp [get_thread_streaming, hres]
  | ok did =>
    simp only [hres] at h
    unfold get_thread at h
    cases hroot : find_root_uri_async api fuel
        ("at://" ++ did ++ "/app.bsky.feed.post/" ++ post_id) with
    | none => simp [hroot] at h
    | some res =>
      cases res with
      | error e' =>
        simp only [hroot, Option.some.injEq, Except.error.injEq] at h
        subst h
        refine ⟨[.error e'], ?_, by simp, Or.inl rfl⟩
        simp [get_thread_streaming, hres, hroot]
      | ok root_uri =>
        simp only [hroot] at h
        cases hfetch : fetch_post_thread_shallow api root_uri with
        | error e' =>
          simp only [hfetch, Option.some.injEq, Except.error.injEq] at h
          subst h
          refine ⟨[.error e'], ?_, by simp, Or.inl rfl⟩
          simp [get_thread_streaming, hres, hroot, hfetch]
        | ok root_view =>
          simp only [hfetch] at h
          cases hfind : find_self_reply root_view root_view.post.author.did with
          | none => simp [hfind] at h
          | some uri =>
            simp only [hfind] at h
            cases hw : walk_forward api root_view.post.author.did fuel uri
                [extract_post root_view] with
            | none => simp [hw] at h
            | some res' =>
              cases res' with
              | ok posts' => simp [hw] at h
              | error e' =>
                simp only [hw, Option.some.injEq, Except.error.injEq] at h
                subst h
                obtain ⟨vs, hchain, hs⟩ :=
                  walk_forward_err_stream fuel uri [extract_post root_view] e' hw
                have hd : (extract_author root_view).did =
                    root_view.post.author.did := rfl
                refine ⟨.ok (.header (extract_author root_view)) ::
                  (root_view :: vs).map
                    (fun v => Except.ok (StreamEvent.post (extract_post v))) ++
                  [.error e'], ?_, by simp, Or.inr ⟨did, root_uri, root_view, vs,
                    rfl, hroot, WalkChainErr.step root_uri root_view uri vs e'
                      hfetch hfind hchain, rfl⟩⟩
                unfold get_thread_streaming
                simp only [hres, hroot, hfetch, hd, hfind, hs]
                simp

/-- Witness for C4: with the third fetch of the concrete five-post chain rate
limited, the buffered call errors and the stream is the Header, exactly the
two Post events for the posts fetched before the failure, then the error. -/
theorem error_aborts_assembly_and_stream_witness :
    (∃ evs, get_thread_streaming cResolve cApiFail 10 "alice.test" "p1" =
        some evs ∧
      Except.ok StreamEvent.done ∉ evs ∧
      (evs = [.error .rateLimited] ∨
        ∃ (did root_uri : String) (root_view : ThreadViewPost)
          (vs : List ThreadViewPost),
          cResolve "alice.test" = .ok did ∧
          find_root_uri_async cApiFail 10
            ("at://" ++ did ++ "/app.bsky.feed.post/" ++ "p1") =
            some (.ok root_uri) ∧
          WalkChainErr cApiFail root_view.post.author.did root_uri
            (root_view :: vs) .rateLimited ∧
          evs = .ok (.header (extract_author root_view)) ::
            (root_view :: vs).map
              (fun v => Except.ok (StreamEvent.post (extract_post v))) ++
            [.error .rateLimited])) ∧
    get_thread_streaming cResolve cApiFail 10 "alice.test" "p1" =
      some [.ok (.header cAuthor), .ok (.post (cThreadPost 1)),
        .ok (.post (cThreadPost 2)), .error .rateLimited] :=
  ⟨error_aborts_assembly_and_stream cResolve cApiFail 10 "alice.test" "p1"
    .rateLimited (by rfl), by rfl⟩

/-- C5: every event list that contains Done is exactly one Header, then the
Post projections of a self-reply chain of views (`WalkChain`, i.e. in chain
order, root first) with at least the root post, then a single final Done;
the handle resolved and the root was located for that chain. -/
theorem stream_event_shape (resolve : ResolveApi) (api : FetchApi) (fuel : Nat)
    (handle post_id : String) (evs : List (Except ClientError StreamEvent))
    (h : get_thread_streaming resolve api fuel handle post_id = some evs)
    (hmem : Except.ok StreamEvent.done ∈ evs) :
    ∃ (did root_uri : String) (root_view : ThreadViewPost)
      (vs : List ThreadViewPost),
      resolve handle = .ok did ∧
      find_root_uri_async api fuel
        ("at://" ++ did ++ "/app.bsky.feed.post/" ++ post_id) =
        some (.ok root_uri) ∧
      WalkChain api root_view.post.author.did root_uri (root_view :: vs) ∧
      evs = .ok (.header (extract_author root_view)) ::
        (root_view :: vs).map
          (fun v => Except.ok (StreamEvent.post (extract_post v))) ++
        [.ok .done] := by
  unfold get_thread_streaming at h
  cases hres : resolve handle with
  | error e =>
    simp only [hres, Option.some.injEq] at h
    subst h
    simp at hmem
  | ok did =>
    simp only [hres] at h
    cases hroot : find_root_uri_async api fuel
        ("at://" ++ did ++ "/app.bsky.feed.post/" ++ post_id) with
    | none => simp [hroot] at h
    | some res =>
      cases res with
      | error e =>
        simp only [hroot, Option.some.injEq] at h
        subst h
        simp at hmem
      | ok root_uri =>
        simp only [hroot] at h
        cases hfetch : fetch_post_thread_shallow api root_uri with
        | error e =>
          simp only [hfetch, Option.some.injEq] at h
          subst h
          simp at hmem
        | ok root_view =>
          simp only [hfetch] at h
          have hd : (extract_author root_view).did =
              root_view.post.author.did := rfl
          rw [hd] at h
          cases hfind : find_self_reply root_view root_view.post.author.did with
          | none =>
            simp only [hfind] at h
            have hsw : stream_walk api root_view.post.author.did fuel none =
                some [Except.ok StreamEvent.done] := by simp [stream_walk]
            simp only [hsw, Option.some.injEq] at h
            subst h
            exact ⟨did, root_uri, root_view, [], rfl, hroot,
              WalkChain.last root_uri root_view hfetch hfind, by simp⟩
          | some u' =>
            simp only [hfind] at h
            cases hrest : stream_walk api root_view.post.author.did fuel
                (some u') with
            | none => simp [hrest] at h
            | some rest =>
              simp only [hrest, Option.some.injEq] at h
              subst h
              have hmem' : Except.ok StreamEvent.done ∈ rest := by
                simpa using hmem
              obtain ⟨ws, hchain, hrest_eq⟩ :=
                stream_walk_done_chain fuel u' rest hrest hmem'
              exact ⟨did, root_uri, root_view, ws, rfl, hroot,
                WalkChain.step root_uri root_view u' ws hfetch hfind hchain,
                by simp [hrest_eq]⟩

/-- Witness for C5 on the concrete five-post chain: the event list is the
Header, the five chain posts in order, then Done. -/
theorem stream_event_shape_witness :
    ∃ (did root_uri : String) (root_view : ThreadViewPost)
      (vs : List ThreadViewPost),
      cResolve "alice.test" = .ok did ∧
      find_root_uri_async cApi 10
        ("at://" ++ did ++ "/app.bsky.feed.post/" ++ "p1") =
        some (.ok root_uri) ∧
      WalkChain cApi root_view.post.author.did root_uri (root_view :: vs) ∧
      ([.ok (.header cAuthor), .ok (.post (cThreadPost 1)),
        .ok (.post (cThreadPost 2)), .ok (.post (cThreadPost 3)),
        .ok (.post (cThreadPost 4)), .ok (.post (cThreadPost 5)), .ok .done] :
        List (Except ClientError StreamEvent)) =
        .ok (.header (extract_author root_view)) ::
          (root_view :: vs).map
            (fun v => Except.ok (StreamEvent.post (extract_post v))) ++
          [.ok .done] :=
  stream_event_shape cResolve cApi 10 "alice.test" "p1"
    [.ok (.header cAuthor), .ok (.post (cThreadPost 1)),
      .ok (.post (cThreadPost 2)), .ok (.post (cThreadPost 3)),
      .ok (.post (cThreadPost 4)), .ok (.post (cThreadPost 5)), .ok .done]
    (by rfl) (by simp)

/-- C6: against a fetch capability that is consistent about authorship, every
successful `get_thread` result has a non-empty posts list, the posts are the
projections of a self-reply chain of views walked in reply order, and every
view in that chain is authored by the Thread's author DID. -/
theorem thread_invariants (api : FetchApi) (fuel : Nat) (at_uri : String)
    (t : Thread) (authorOf : String → String) (hc : ApiConsistent api authorOf)
    (h : get_thread api fuel at_uri = some (.ok t)) :
    t.posts ≠ [] ∧
    ∃ (root_uri : String) (vs : List ThreadViewPost),
      WalkChain api t.author.did root_uri vs ∧
      t.posts = vs.map extract_post ∧
      ∀ v ∈ vs, v.post.author.did = t.author.did := by
  obtain ⟨root_uri, root_view, vs, hroot, hfetch, hchain, hposts, hauthor, _⟩ :=
    get_thread_ok_decomp h
  have hdid : t.author.did = root_view.post.author.did := by rw [hauthor]; rfl
  have hof : authorOf root_uri = root_view.post.author.did :=
    (hc.fetch_author root_uri root_view hfetch).symm
  refine ⟨get_thread_posts_ne_nil h, root_uri, root_view :: vs, ?_, hposts, ?_⟩
  · rw [hdid]; exact hchain
  · intro v hv
    rw [hdid]
    exact chain_authors hc hchain hof v hv

/-- Witness for C6 on the one-post world. -/
theorem thread_invariants_witness :
    cThread1.posts ≠ [] ∧
    ∃ (root_uri : String) (vs : List ThreadViewPost),
      WalkChain cRootOnlyApi cThread1.author.did root_uri vs ∧
      cThread1.posts = vs.map extract_post ∧
      ∀ v ∈ vs, v.post.author.did = cThread1.author.did := by
  have hc : ApiConsistent cRootOnlyApi (fun _ => "did:plc:alice") := by
    constructor
    · intro u v hf
      by_cases hu : u = cUri 1
      · subst hu
        have h1 : fetch_post_thread_shallow cRootOnlyApi (cUri 1) =
            .ok (ThreadViewPost.mk (cPostView 1) none none) := rfl
        rw [h1] at hf
        injection hf with hv
        subst hv
        rfl
      · have h1 : fetch_post_thread_shallow cRootOnlyApi u =
            .error .notFound := by
          simp [fetch_post_thread_shallow, cRootOnlyApi, hu]
        rw [h1] at hf
        simp at hf
    · intro u v hf items hrep rv hmem
      by_cases hu : u = cUri 1
      · subst hu
        have h1 : fetch_post_thread_shallow cRootOnlyApi (cUri 1) =
            .ok (ThreadViewPost.mk (cPostView 1) none none) := rfl
        rw [h1] at hf
        injection hf with hv
        subst hv
        simp [ThreadViewPost.replies] at hrep
      · have h1 : fetch_post_thread_shallow cRootOnlyApi u =
            .error .notFound := by
          simp [fetch_post_thread_shallow, cRootOnlyApi, hu]
        rw [h1] at hf
        simp at hf
  exact thread_invariants cRootOnlyApi 2 (cUri 1) cThread1
    (fun _ => "did:plc:alice") hc (by rfl)

/-- C8 (amended): on a no-new-posts poll the `X-Thread-Stale` flag is true
iff the last post is at least `poll_disable_after` seconds old relative to
now (or the posts list is empty); when new posts are found the flag is
false; the configured default is 1800 seconds. -/
theorem staleness_flag :
    (∀ (t : Thread) (since_cid : String) (now : Int) (cfg : Nat) (b : Bool),
      get_thread_updates_core t since_cid now cfg = .noContent b →
      (b = true ↔ ∀ ts, t.posts.getLast?.map (fun p => p.created_at) = some ts →
        now - ts ≥ (cfg : Int))) ∧
    (∀ (t : Thread) (since_cid : String) (now : Int) (cfg : Nat)
      (ps : List ThreadPost) (c : String) (n : Nat) (b : Bool),
      get_thread_updates_core t since_cid now cfg = .newPosts ps c n b →
      b = false) ∧
    POLL_DISABLE_AFTER_DEFAULT = 1800 := by
  refine ⟨?_, ?_, rfl⟩
  · intro t since_cid now cfg b h
    unfold get_thread_updates_core at h
    dsimp only at h
    split at h
    · cases hl : t.posts.getLast? with
      | none =>
        simp only [hl, Option.map_none'] at h
        injection h with hb
        subst hb
        simp [hl]
      | some p =>
        simp only [hl, Option.map_some'] at h
        injection h with hb
        subst hb
        simp [hl, decide_eq_true_eq]
    · exact absurd h (by simp)
  · intro t since_cid now cfg ps c n b h
    unfold get_thread_updates_core at h
    dsimp only at h
    split at h
    · exact absurd h (by simp)
    · injection h with _ _ _ hb
      exact hb.symm

/-- Witness for C8 on a freshly stale one-post thread. -/
theorem staleness_flag_witness :
    (true = true ↔ ∀ ts,
      cStaleThread.posts.getLast?.map (fun p => p.created_at) = some ts →
      (1800 : Int) - ts ≥ ((1800 : Nat) : Int)) :=
  staleness_flag.1 cStaleThread "c1" 1800 1800 true (by rfl)

/-- Counterexample to C8 as stated: with the last post exactly
`poll_disable_after` seconds old (not strictly older), the code still flags
the thread stale. -/
theorem staleness_flag_cex :
    get_thread_updates_core cStaleThread "c1" 1800 1800 = .noContent true ∧
    ¬((1800 : Int) - (cThreadPost 1).created_at > ((1800 : Nat) : Int)) := by
  constructor
  · rfl
  · decide

/-- C10: a poll whose cursor matches no post of a freshly assembled thread
returns all of the thread's posts (never an error or an empty result), and
whenever new posts are returned the `X-Last-CID` header is the cid of the
last returned post and `X-Post-Count` is the number of returned posts. -/
theorem updates_unknown_cursor_returns_all :
    (∀ (resolve : ResolveApi) (api : FetchApi) (fuel : Nat)
      (handle post_id : String) (t : Thread) (since_cid : String) (now : Int)
      (cfg : Nat),
      get_thread_by_handle resolve api fuel handle post_id = some (.ok t) →
      (∀ q ∈ t.posts, q.cid ≠ since_cid) →
      ∃ last_post, t.posts.getLast? = some last_post ∧
        get_thread_updates_core t since_cid now cfg =
          .newPosts t.posts last_post.cid t.posts.length false) ∧
    (∀ (t : Thread) (since_cid : String) (now : Int) (cfg : Nat)
      (ps : List ThreadPost) (c : String) (n : Nat) (b : Bool),
      get_thread_updates_core t since_cid now cfg = .newPosts ps c n b →
      ps.getLast?.map (fun q => q.cid) = some c ∧ n = ps.length) := by
  constructor
  · intro resolve api fuel handle post_id t since_cid now cfg h hno
    unfold get_thread_by_handle at h
    cases hres : resolve handle with
    | error e => simp [hres] at h
    | ok did =>
      simp only [hres] at h
      have hne : t.posts ≠ [] := get_thread_posts_ne_nil h
      have hidx : t.posts.findIdx? (fun p => p.cid = since_cid) = none := by
        rw [List.findIdx?_eq_none_iff]
        intro q hq
        simp [hno q hq]
      obtain ⟨last_post, hlast⟩ : ∃ x, t.posts.getLast? = some x := by
        cases hl : t.posts.getLast? with
        | none => exact absurd (List.getLast?_eq_none_iff.mp hl) hne
        | some x => exact ⟨x, rfl⟩
      refine ⟨last_post, hlast, ?_⟩
      unfold get_thread_updates_core
      simp only [hidx, hlast]
  · intro t since_cid now cfg ps c n b h
    unfold get_thread_updates_core at h
    dsimp only at h
    split at h
    · exact absurd h (by simp)
    · rename_i last_post heq
      injection h with h1 h2 h3 _
      subst h1
      subst h2
      subst h3
      exact ⟨by rw [heq]; rfl, rfl⟩

/-- Witness for C10 on the concrete five-post chain with an unknown cursor. -/
theorem updates_unknown_cursor_returns_all_witness :
    ∃ last_post, cThread5.posts.getLast? = some last_post ∧
      get_thread_updates_core cThread5 "nope" 0 1800 =
        .newPosts cThread5.posts last_post.cid cThread5.posts.length false :=
  updates_unknown_cursor_returns_all.1 cResolve cApi 10 "alice.test" "p1"
    cThread5 "nope" 0 1800 (by rfl) (by decide)

end Sklonger
